import Mathlib

/-!
A shallow embedding of the query caching and resilience layer of the
repository (`src/utils/cache.py` and `src/utils/retry.py`), together with
theorems settling the specified properties of that layer.

Python's wall-clock reads (`datetime.utcnow()`, `time.time()`) are modelled
by an explicit `now` argument threaded into each operation that reads the
clock.  Timestamps and TTLs are modelled as integers (seconds); retry and
circuit-breaker delays are modelled as rationals.
-/

namespace Rag

/-- Modelled from the spec: the class `CacheEntry` is defined in
`src/models/schemas.py`, which is missing from the snapshot; per the spec it
carries a key, an opaque value, `created_at` / `accessed_at` timestamps, an
`access_count` and a `ttl` in seconds. -/
structure CacheEntry (α : Type) where
  key : String
  value : α
  created_at : Int
  accessed_at : Int
  access_count : Int
  ttl : Int
deriving DecidableEq

/-- Modelled from the spec: `CacheEntry.is_expired` (defined in the missing
`src/models/schemas.py`); per the spec an entry is expired exactly when
`now - created_at > ttl`. -/
def CacheEntry.is_expired (e : CacheEntry α) (now : Int) : Bool :=
  decide (now - e.created_at > e.ttl)

/-- State of `LRUCache` (`src/utils/cache.py`): the `OrderedDict` becomes an
ordered association list (head = least recently used, tail = most recently
used), plus the configured bounds and the hit/miss counters. -/
structure LRUCache (α : Type) where
  max_size : Int
  ttl : Int
  cache : List (String × CacheEntry α)
  hits : Nat
  misses : Nat
deriving DecidableEq

/-- `LRUCache.__init__`: empty ordered dict, zero counters. -/
def LRUCache.init (α : Type) (max_size ttl : Int) : LRUCache α :=
  ⟨max_size, ttl, [], 0, 0⟩

/-- `LRUCache.get`: miss on an absent key; an expired entry is deleted and
counted as a miss; otherwise the entry moves to the most-recently-used end,
its access bookkeeping is updated, and the hit is counted. -/
def LRUCache.get (s : LRUCache α) (key : String) (now : Int) :
    Option α × LRUCache α :=
  match s.cache.find? (fun p => p.1 == key) with
  | none => (none, { s with misses := s.misses + 1 })
  | some (_, entry) =>
    if entry.is_expired now then
      (none, { s with cache := s.cache.eraseP (fun p => p.1 == key),
                      misses := s.misses + 1 })
    else
      let entry' := { entry with accessed_at := now,
                                 access_count := entry.access_count + 1 }
      (some entry.value,
       { s with
           cache := s.cache.eraseP (fun p => p.1 == key) ++ [(key, entry')],
           hits := s.hits + 1 })

/-- `LRUCache.set`, instrumented to return also the list of evicted pairs:
the body creates a fresh entry, removes any existing binding for the key,
appends at the most-recently-used end, and pops the head
(`popitem(last=False)`) when the capacity is exceeded. -/
def LRUCache.setE (s : LRUCache α) (key : String) (value : α) (now : Int) :
    LRUCache α × List (String × CacheEntry α) :=
  let entry : CacheEntry α :=
    { key := key, value := value, created_at := now, accessed_at := now,
      access_count := 0, ttl := s.ttl }
  let c1 := if (s.cache.find? (fun p => p.1 == key)).isSome
            then s.cache.eraseP (fun p => p.1 == key) else s.cache
  let c2 := c1 ++ [(key, entry)]
  if (c2.length : Int) > s.max_size then
    ({ s with cache := c2.drop 1 }, c2.take 1)
  else
    ({ s with cache := c2 }, [])

/-- `LRUCache.set`: the state produced by the instrumented `setE`. -/
def LRUCache.set (s : LRUCache α) (key : String) (value : α) (now : Int) :
    LRUCache α :=
  (s.setE key value now).1

/-- `LRUCache.delete`: remove the binding if present; the returned flag says
whether a removal happened. -/
def LRUCache.delete (s : LRUCache α) (key : String) : Bool × LRUCache α :=
  if (s.cache.find? (fun p => p.1 == key)).isSome then
    (true, { s with cache := s.cache.eraseP (fun p => p.1 == key) })
  else
    (false, s)

/-- `LRUCache.__contains__`: plain dictionary membership, no TTL check. -/
def LRUCache.contains (s : LRUCache α) (key : String) : Bool :=
  (s.cache.find? (fun p => p.1 == key)).isSome

/-- Folding a sequence of `set` calls over a cache state; each list element
is a (key, value, clock reading) triple. -/
def LRUCache.applySets (s : LRUCache α) (ops : List (String × α × Int)) :
    LRUCache α :=
  ops.foldl (fun t o => t.set o.1 o.2.1 o.2.2) s

/-- `exponential_backoff` (`src/utils/retry.py`): delay before the retry
with zero-indexed number `attempt`, capped at `max_delay`.  Python floats
are modelled as rationals. -/
def exponential_backoff (attempt : Nat)
    (base_delay max_delay exponential_base : ℚ) : ℚ :=
  min (base_delay * exponential_base ^ attempt) max_delay

/-- Observable outcome of one run of the retry wrapper: the returned or
raised result, the number of invocations of the wrapped operation, and the
sequence of sleep delays performed. -/
structure RetryOutcome (ε α : Type) where
  result : Except ε α
  calls : Nat
  delays : List ℚ

/-- Loop of `retry_with_exponential_backoff` (`for attempt in
range(max_retries + 1)`): `attempt` is the current zero-indexed attempt and
`remaining` the number of attempts still allowed after this one.  The
wrapped operation is modelled as a function from the attempt number to its
outcome, and `retryable` says whether a raised failure belongs to the
configured `exceptions` tuple (a non-member propagates uncaught). -/
def retryGo (op : Nat → Except ε α) (retryable : ε → Bool)
    (base_delay max_delay exponential_base : ℚ) :
    Nat → Nat → RetryOutcome ε α
  | attempt, 0 =>
    match op attempt with
    | .ok a => ⟨.ok a, 1, []⟩
    | .error e => ⟨.error e, 1, []⟩
  | attempt, remaining + 1 =>
    match op attempt with
    | .ok a => ⟨.ok a, 1, []⟩
    | .error e =>
      if retryable e then
        let r := retryGo op retryable base_delay max_delay exponential_base
          (attempt + 1) remaining
        ⟨r.result, r.calls + 1,
         exponential_backoff attempt base_delay max_delay exponential_base
           :: r.delays⟩
      else ⟨.error e, 1, []⟩

/-- `retry_with_exponential_backoff`: at most `max_retries + 1` attempts,
starting with attempt 0. -/
def retry_with_exponential_backoff (max_retries : Nat)
    (base_delay max_delay exponential_base : ℚ) (retryable : ε → Bool)
    (op : Nat → Except ε α) : RetryOutcome ε α :=
  retryGo op retryable base_delay max_delay exponential_base 0 max_retries

/-- Python exception values as observed by the resilience layer: the
exception class name and the numeric payload interpolated into the message
(0 when none).  The open-circuit rejection in `CircuitBreaker.call` is
`Exception(f"Circuit breaker is OPEN. Retry after ...s")` with
`self.recovery_timeout` interpolated, modelled as class `"Exception"` with
that number as payload. -/
structure PyExc where
  ty : String
  payload : ℚ
deriving DecidableEq

/-- The `self.state` strings of `CircuitBreaker`: `closed` for `"closed"`,
`opened` for `"open"` (a reserved word in Lean) and `halfOpen` for
`"half_open"`. -/
inductive CBState where
  | closed
  | opened
  | halfOpen
deriving DecidableEq

/-- State of `CircuitBreaker` (`src/utils/retry.py`): configuration plus
the mutable failure count, last failure time and state string. -/
structure CircuitBreaker where
  failure_threshold : Nat
  recovery_timeout : ℚ
  failure_count : Nat
  last_failure_time : Option ℚ
  state : CBState
deriving DecidableEq

/-- `CircuitBreaker._should_attempt_reset`. -/
def CircuitBreaker.should_attempt_reset (cb : CircuitBreaker) (now : ℚ) :
    Bool :=
  match cb.last_failure_time with
  | none => true
  | some t => decide (now - t ≥ cb.recovery_timeout)

/-- `CircuitBreaker._on_success`: close the breaker when half-open, reset
the failure count. -/
def CircuitBreaker.on_success (cb : CircuitBreaker) : CircuitBreaker :=
  let cb1 := if cb.state = CBState.halfOpen
             then { cb with state := CBState.closed } else cb
  { cb1 with failure_count := 0 }

/-- `CircuitBreaker._on_failure`: count the failure, stamp the time, open
the breaker once the threshold is reached. -/
def CircuitBreaker.on_failure (cb : CircuitBreaker) (now : ℚ) :
    CircuitBreaker :=
  let cb1 := { cb with failure_count := cb.failure_count + 1,
                       last_failure_time := some now }
  if cb1.failure_count ≥ cb1.failure_threshold
  then { cb1 with state := CBState.opened } else cb1

/-- The `try/except` body of `CircuitBreaker.call` once past the open-state
gate: `guarded` models membership in `expected_exceptions`, `opRes` is the
wrapped operation's outcome, and the returned flag records that the
operation was invoked. -/
def CircuitBreaker.attempt (cb : CircuitBreaker) (guarded : PyExc → Bool)
    (opRes : Except PyExc α) (now : ℚ) :
    Except PyExc α × CircuitBreaker × Bool :=
  match opRes with
  | .ok a => (.ok a, cb.on_success, true)
  | .error e =>
    if guarded e then (.error e, cb.on_failure now, true)
    else (.error e, cb, true)

/-- `CircuitBreaker.call`: in the open state, either transition to
half-open (when the recovery timeout has elapsed) and attempt the call, or
reject without invoking the operation by raising a plain `Exception` whose
message carries `recovery_timeout`. -/
def CircuitBreaker.call (cb : CircuitBreaker) (guarded : PyExc → Bool)
    (opRes : Except PyExc α) (now : ℚ) :
    Except PyExc α × CircuitBreaker × Bool :=
  if cb.state = CBState.opened then
    if cb.should_attempt_reset now then
      ({ cb with state := CBState.halfOpen }).attempt guarded opRes now
    else
      (.error ⟨"Exception", cb.recovery_timeout⟩, cb, false)
  else
    cb.attempt guarded opRes now

def add32 (a b : Nat) : Nat := (a + b) % 4294967296

def rotr32 (x n : Nat) : Nat :=
  ((x >>> n) ||| (x <<< (32 - n))) % 4294967296

def sigma0 (x : Nat) : Nat := (rotr32 x 7) ^^^ (rotr32 x 18) ^^^ (x >>> 3)

def sigma1 (x : Nat) : Nat := (rotr32 x 17) ^^^ (rotr32 x 19) ^^^ (x >>> 10)

def bigSigma0 (x : Nat) : Nat :=
  (rotr32 x 2) ^^^ (rotr32 x 13) ^^^ (rotr32 x 22)

def bigSigma1 (x : Nat) : Nat :=
  (rotr32 x 6) ^^^ (rotr32 x 11) ^^^ (rotr32 x 25)

def chFn (x y z : Nat) : Nat := (x &&& y) ^^^ ((x ^^^ 4294967295) &&& z)

def majFn (x y z : Nat) : Nat := (x &&& y) ^^^ (x &&& z) ^^^ (y &&& z)

/-- Round constants of SHA-256 (`hashlib.sha256` is modelled bit-exactly,
with 32-bit words as naturals reduced mod 2^32). -/
def sha256K : List Nat :=
  [1116352408, 1899447441, 3049323471,
   3921009573, 961987163, 1508970993,
   2453635748, 2870763221, 3624381080,
   310598401, 607225278, 1426881987,
   1925078388, 2162078206, 2614888103,
   3248222580, 3835390401, 4022224774,
   264347078, 604807628, 770255983,
   1249150122, 1555081692, 1996064986,
   2554220882, 2821834349, 2952996808,
   3210313671, 3336571891, 3584528711,
   113926993, 338241895, 666307205,
   773529912, 1294757372, 1396182291,
   1695183700, 1986661051, 2177026350,
   2456956037, 2730485921, 2820302411,
   3259730800, 3345764771, 3516065817,
   3600352804, 4094571909, 275423344,
   430227734, 506948616, 659060556,
   883997877, 958139571, 1322822218,
   1537002063, 1747873779, 1955562222,
   2024104815, 2227730452, 2361852424,
   2428436474, 2756734187, 3204031479,
   3329325298]

/-- The eight 32-bit working variables of SHA-256. -/
structure Sha256State where
  a : Nat
  b : Nat
  c : Nat
  d : Nat
  e : Nat
  f : Nat
  g : Nat
  h : Nat

def sha256H0 : Sha256State :=
  ⟨1779033703, 3144134277,
   1013904242, 2773480762,
   1359893119, 2600822924,
   528734635, 1541459225⟩

def sha256Round (st : Sha256State) (wk : Nat) : Sha256State :=
  let t1 := add32 (add32 st.h (bigSigma1 st.e))
    (add32 (chFn st.e st.f st.g) wk)
  let t2 := add32 (bigSigma0 st.a) (majFn st.a st.b st.c)
  ⟨add32 t1 t2, st.a, st.b, st.c, add32 st.d t1, st.e, st.f, st.g⟩

/-- One message-schedule word, computed from the reversed prefix of the
schedule (head = most recent word). -/
def scheduleStep (rev : List Nat) : Nat :=
  add32 (add32 (sigma1 (rev.getD 1 0)) (rev.getD 6 0))
        (add32 (sigma0 (rev.getD 14 0)) (rev.getD 15 0))

def extendSchedule : Nat → List Nat → List Nat
  | 0, rev => rev
  | n + 1, rev => extendSchedule n (scheduleStep rev :: rev)

def sha256Block (st : Sha256State) (block : List Nat) : Sha256State :=
  let w := (extendSchedule 48 block.reverse).reverse
  let wk := List.zipWith add32 w sha256K
  let st2 := wk.foldl sha256Round st
  ⟨add32 st.a st2.a, add32 st.b st2.b, add32 st.c st2.c, add32 st.d st2.d,
   add32 st.e st2.e, add32 st.f st2.f, add32 st.g st2.g, add32 st.h st2.h⟩

def bytesToWords : List Nat → List Nat
  | a :: b :: c :: d :: rest =>
    (((a * 256 + b) * 256 + c) * 256 + d) :: bytesToWords rest
  | _ => []

def chunksOf16 : Nat → List Nat → List (List Nat)
  | 0, _ => []
  | _, [] => []
  | fuel + 1, w :: rest =>
    ((w :: rest).take 16) :: chunksOf16 fuel ((w :: rest).drop 16)

def beBytes8 (v : Nat) : List Nat :=
  [(v >>> 56) % 256, (v >>> 48) % 256, (v >>> 40) % 256, (v >>> 32) % 256,
   (v >>> 24) % 256, (v >>> 16) % 256, (v >>> 8) % 256, v % 256]

def sha256Pad (msg : List Nat) : List Nat :=
  let L := msg.length
  let k := (119 - (L % 64)) % 64
  msg ++ 128 :: (List.replicate k 0 ++ beBytes8 (8 * L))

def combineWords (ws : List Nat) : Nat :=
  ws.foldl (fun acc w => acc * 4294967296 + w % 4294967296) 0

/-- The SHA-256 digest of a byte sequence, as a natural below 2^256. -/
def sha256Nat (msg : List Nat) : Nat :=
  let ws := bytesToWords (sha256Pad msg)
  let st := (chunksOf16 (ws.length + 1) ws).foldl sha256Block sha256H0
  combineWords [st.a, st.b, st.c, st.d, st.e, st.f, st.g, st.h]

def hexDigitChar (n : Nat) : Char := "0123456789abcdef".toList.getD n '0'

def natToHexAux : Nat → Nat → List Char → List Char
  | 0, _, acc => acc
  | fuel + 1, v, acc => natToHexAux fuel (v / 16) (hexDigitChar (v % 16) :: acc)

/-- The 64-digit lowercase hex rendering used by `hexdigest()`. -/
def natToHex64 (v : Nat) : String := String.mk (natToHexAux 64 v [])

/-- UTF-8 encoding of one character (`str.encode()`). -/
def encodeChar (c : Char) : List Nat :=
  let n := c.toNat
  if n < 128 then [n]
  else if n < 2048 then [192 + n / 64, 128 + n % 64]
  else if n < 65536 then [224 + n / 4096, 128 + (n / 64) % 64, 128 + n % 64]
  else [240 + n / 262144, 128 + (n / 4096) % 64, 128 + (n / 64) % 64,
        128 + n % 64]

def strBytes (s : String) : List Nat := (s.toList.map encodeChar).flatten

/-- `hashlib.sha256(s.encode()).hexdigest()`. -/
def sha256hex (s : String) : String := natToHex64 (sha256Nat (strBytes s))

def natDigits : Nat → Nat → List Char → List Char
  | 0, _, acc => acc
  | fuel + 1, v, acc =>
    if v = 0 then acc else natDigits fuel (v / 10) (hexDigitChar (v % 10) :: acc)

def natStr (v : Nat) : String :=
  if v = 0 then "0" else String.mk (natDigits v v [])

/-- Python decimal rendering of an integer. -/
def intStr (i : Int) : String :=
  if i < 0 then "-" ++ natStr i.natAbs else natStr i.natAbs

/-- JSON-serializable extra parameter values (`**kwargs` of
`QueryCache._generate_key`); the repository passes primitives, modelled
here as integers and strings. -/
inductive JVal where
  | jint : Int → JVal
  | jstr : String → JVal
deriving DecidableEq

/-- The string escaping of `json.dumps` (default `ensure_ascii=True`):
quote and backslash escaped, control characters by shorthand or `\u`,
non-ASCII by `\u` with surrogate pairs beyond the BMP. -/
def escChar (c : Char) : List Char :=
  let n := c.toNat
  if c = '"' then ['\\', '"']
  else if c = '\\' then ['\\', '\\']
  else if n = 10 then ['\\', 'n']
  else if n = 13 then ['\\', 'r']
  else if n = 9 then ['\\', 't']
  else if n = 8 then ['\\', 'b']
  else if n = 12 then ['\\', 'f']
  else if n < 32 || 126 < n then
    if n < 65536 then '\\' :: 'u' :: natToHexAux 4 n []
    else
      ('\\' :: 'u' :: natToHexAux 4 (55296 + (n - 65536) / 1024) []) ++
      ('\\' :: 'u' :: natToHexAux 4 (56320 + (n - 65536) % 1024) [])
  else [c]

def encStr (s : String) : String :=
  "\"" ++ String.mk ((s.toList.map escChar).flatten) ++ "\""

def dumpVal : JVal → String
  | .jstr s => encStr s
  | .jint i => intStr i

/-- Comma-and-space separated `"key": value` items (the default separators
of `json.dumps`). -/
def dumpItems : List (String × JVal) → String
  | [] => ""
  | [p] => encStr p.1 ++ ": " ++ dumpVal p.2
  | p :: q :: rest =>
    encStr p.1 ++ ": " ++ dumpVal p.2 ++ ", " ++ dumpItems (q :: rest)

def dumpObj (items : List (String × JVal)) : String :=
  "\x7b" ++ dumpItems items ++ "\x7d"

/-- Code-point lexicographic comparison of character lists — Python string
`<`. -/
def charListLt : List Char → List Char → Bool
  | [], [] => false
  | [], _ :: _ => true
  | _ :: _, [] => false
  | a :: as, b :: bs =>
    if a.toNat < b.toNat then true
    else if b.toNat < a.toNat then false
    else charListLt as bs

def strLt (s t : String) : Bool := charListLt s.data t.data

def strLe (s t : String) : Bool := !strLt t s

def pairLe (p q : String × JVal) : Prop := strLe p.1 q.1 = true

instance : DecidableRel pairLe := fun p q =>
  inferInstanceAs (Decidable (strLe p.1 q.1 = true))

/-- The strict key order on items, used to conclude sorted-list equality. -/
def pairLt (p q : String × JVal) : Prop := strLt p.1 q.1 = true

/-- `sort_keys=True` of `json.dumps`: items sorted by key. -/
def sortPairs (l : List (String × JVal)) : List (String × JVal) :=
  List.insertionSort pairLe l

/-- The canonical serialization hashed by `QueryCache._generate_key`:
`json.dumps({"query": query, **kwargs}, sort_keys=True)`.  A keyword
argument named `query` is impossible in Python (it would collide with the
positional parameter), so the dict is the plain extension of the params by
the query binding. -/
def keyString (query : String) (params : List (String × JVal)) : String :=
  dumpObj (sortPairs (("query", JVal.jstr query) :: params))

/-- `QueryCache._generate_key`: SHA-256 hex digest of the canonical
serialization. -/
def QueryCache.generate_key (query : String)
    (params : List (String × JVal)) : String :=
  sha256hex (keyString query params)

/-- `CacheConfig` (`config/settings.py`): the three recognized fields. -/
structure CacheConfig where
  enabled : Bool
  ttl : Int
  max_size : Int
deriving DecidableEq

/-- State of `QueryCache` (`src/utils/cache.py`): configuration and the
optional underlying `LRUCache` (absent when caching is disabled). -/
structure QueryCache (α : Type) where
  config : CacheConfig
  cache : Option (LRUCache α)
deriving DecidableEq

/-- `QueryCache.__init__`. -/
def QueryCache.init (α : Type) (config : CacheConfig) : QueryCache α :=
  ⟨config, if config.enabled then
      some (LRUCache.init α config.max_size config.ttl) else none⟩

/-- `QueryCache.get`: pass-through when disabled, otherwise delegate to the
underlying `LRUCache.get` under the generated key. -/
def QueryCache.get (qc : QueryCache α) (query : String)
    (params : List (String × JVal)) (now : Int) :
    Option α × QueryCache α :=
  if !qc.config.enabled then (none, qc)
  else match qc.cache with
    | none => (none, qc)
    | some c =>
      let r := c.get (QueryCache.generate_key query params) now
      (r.1, { qc with cache := some r.2 })

/-- `QueryCache.set`: no-op when disabled, otherwise delegate to
`LRUCache.set` under the generated key. -/
def QueryCache.set (qc : QueryCache α) (query : String)
    (params : List (String × JVal)) (result : α) (now : Int) :
    QueryCache α :=
  if !qc.config.enabled then qc
  else match qc.cache with
    | none => qc
    | some c =>
      { qc with cache := some (c.set (QueryCache.generate_key query params)
          result now) }

/-- The stored entries of a `QueryCache` (empty when disabled). -/
def QueryCache.entries (qc : QueryCache α) : List (String × CacheEntry α) :=
  match qc.cache with
  | none => []
  | some c => c.cache

lemma LRUCache.set_max_size (s : LRUCache α) (k : String) (v : α) (now : Int) :
    (s.set k v now).max_size = s.max_size := by
  simp only [LRUCache.set, LRUCache.setE]
  split <;> split <;> rfl

lemma LRUCache.setE_step (s : LRUCache α) (k : String) (v : α) (now : Int)
    (h : (s.cache.length : Int) ≤ s.max_size) :
    ((s.set k v now).cache.length : Int) ≤ s.max_size ∧
      (s.setE k v now).2.length ≤ 1 := by
  have hsub : (s.cache.eraseP (fun p => p.1 == k)).length ≤ s.cache.length :=
    List.Sublist.length_le (List.eraseP_sublist s.cache)
  simp only [LRUCache.set, LRUCache.setE]
  split <;> split <;> rename_i hov
  all_goals {
    simp only [gt_iff_lt, not_lt, List.length_append, List.length_singleton]
      at hov
    constructor
    · simp only [List.length_drop, List.length_append, List.length_singleton]
      omega
    · simp only [List.length_take, List.length_nil]
      omega }

lemma LRUCache.applySets_len (ops : List (String × α × Int)) :
    ∀ s : LRUCache α, (s.cache.length : Int) ≤ s.max_size →
      ((s.applySets ops).cache.length : Int) ≤ (s.applySets ops).max_size ∧
        (s.applySets ops).max_size = s.max_size := by
  induction ops with
  | nil => intro s h; exact ⟨h, rfl⟩
  | cons o rest ih =>
    intro s h
    have h1 := (LRUCache.setE_step s o.1 o.2.1 o.2.2 h).1
    have h2 := LRUCache.set_max_size s o.1 o.2.1 o.2.2
    have := ih (s.set o.1 o.2.1 o.2.2) (by rw [h2]; exact h1)
    simpa [LRUCache.applySets, h2] using this

/-- C1: for every `LRUCache` with `max_size >= 1` and every sequence of
`set` calls, after each call the number of stored entries is at most
`max_size`; a single `set` evicts at most one entry. -/
theorem lru_set_capacity_invariant (α : Type) (ms ttl : Int) (hms : 1 ≤ ms)
    (ops : List (String × α × Int)) :
    (((LRUCache.init α ms ttl).applySets ops).cache.length : Int) ≤ ms ∧
      ∀ (s : LRUCache α) (k : String) (v : α) (now : Int),
        (s.cache.length : Int) ≤ s.max_size →
        ((s.set k v now).cache.length : Int) ≤ s.max_size ∧
          (s.setE k v now).2.length ≤ 1 := by
  constructor
  · have h0 : (((LRUCache.init α ms ttl).cache.length : Int)) ≤ ms := by
      simp [LRUCache.init]; omega
    have := LRUCache.applySets_len ops (LRUCache.init α ms ttl) h0
    have hms' : (LRUCache.applySets (LRUCache.init α ms ttl) ops).max_size = ms :=
      this.2
    simpa [hms'] using this.1
  · intro s k v now h
    exact LRUCache.setE_step s k v now h

/-- Witness for C1 at a concrete cache and operation sequence. -/
theorem lru_set_capacity_invariant_witness :
    (((LRUCache.init Int 2 3600).applySets
        [("a", 1, 0), ("b", 2, 0), ("c", 3, 0)]).cache.length : Int) ≤ 2 :=
  (lru_set_capacity_invariant Int 2 3600 (by decide)
    [("a", 1, 0), ("b", 2, 0), ("c", 3, 0)]).1

lemma LRUCache.get_expired (s : LRUCache α) (k : String) (e : CacheEntry α)
    (now : Int) (hfind : s.cache.find? (fun p => p.1 == k) = some (k, e))
    (hexp : e.is_expired now = true) :
    s.get k now =
      (none, { s with cache := s.cache.eraseP (fun p => p.1 == k),
                      misses := s.misses + 1 }) := by
  simp only [LRUCache.get, hfind, hexp, ite_true]

lemma LRUCache.get_some_inv (s : LRUCache α) (k : String) (now : Int)
    (v : α) (s' : LRUCache α) (h : s.get k now = (some v, s')) :
    ∃ en : CacheEntry α,
      s.cache.find? (fun p => p.1 == k) = some (k, en) ∧
      en.is_expired now = false ∧ v = en.value ∧
      s' = { s with
               cache := s.cache.eraseP (fun p => p.1 == k) ++
                 [(k, { en with accessed_at := now,
                                access_count := en.access_count + 1 })],
               hits := s.hits + 1 } := by
  simp only [LRUCache.get] at h
  split at h
  · simp at h
  · split at h
    · simp at h
    · rename_i p entry heq hexp
      have hk : p = k := by
        have := List.find?_some heq
        simpa using this
      subst hk
      simp only [Prod.mk.injEq, Option.some.injEq] at h
      exact ⟨entry, heq, by simpa using hexp, h.1.symm, h.2.symm⟩

lemma LRUCache.find?_eraseP_ne (l : List (String × CacheEntry α))
    (k k' : String) (hne : k' ≠ k) :
    (l.eraseP (fun p => p.1 == k)).find? (fun p => p.1 == k') =
      l.find? (fun p => p.1 == k') := by
  induction l with
  | nil => rfl
  | cons x t ih =>
    by_cases hx : x.1 = k
    · have hxk : (x.1 == k) = true := by simp [hx]
      have hxk' : (x.1 == k') = false := by
        simp only [beq_eq_false_iff_ne, ne_eq, hx]
        exact fun hh => hne hh.symm
      simp [List.eraseP_cons, hxk, hxk']
    · have hxk : (x.1 == k) = false := by simp [hx]
      by_cases hx' : x.1 = k'
      · have hxk' : (x.1 == k') = true := by simp [hx']
        simp [List.eraseP_cons, hxk, hxk']
      · have hxk' : (x.1 == k') = false := by simp [hx']
        simp [List.eraseP_cons, hxk, hxk', ih]

/-- C2: every successful `get` and every `set` (on a cache of capacity at
least 1) leaves the affected key in the most-recently-used (last) position;
and in the concrete `max_size = 2` scenario
`set a; set b; get a; set c`, key `b` is evicted while `a` and `c` remain
present (reading `a` protected it). -/
theorem lru_recency_order (α : Type) :
    (∀ (s : LRUCache α) (k : String) (now : Int) (v : α) (s' : LRUCache α),
        s.get k now = (some v, s') →
        ∃ e, s'.cache.getLast? = some (k, e)) ∧
    (∀ (s : LRUCache α) (k : String) (v : α) (now : Int),
        1 ≤ s.max_size →
        ∃ e, (s.set k v now).cache.getLast? = some (k, e)) ∧
    (let s4 := (((((LRUCache.init Int 2 3600).set "a" 1 0).set "b" 2 0).get
        "a" 0).2).set "c" 3 0
     s4.contains "b" = false ∧ (s4.get "a" 0).1 = some 1 ∧
       (s4.get "c" 0).1 = some 3) := by
  refine ⟨?_, ?_, by decide⟩
  · intro s k now v s' h
    obtain ⟨en, _, _, _, hs'⟩ := LRUCache.get_some_inv s k now v s' h
    refine ⟨{ en with accessed_at := now,
                      access_count := en.access_count + 1 }, ?_⟩
    rw [hs']
    simp
  · intro s k v now hms
    simp only [LRUCache.set, LRUCache.setE]
    split <;> split <;> rename_i hov
    case _ =>
      refine ⟨⟨k, v, now, now, 0, s.ttl⟩, ?_⟩
      cases hc : s.cache.eraseP (fun p => p.1 == k) with
      | nil =>
        rw [hc] at hov
        simp at hov
        omega
      | cons x t => simp
    case _ => exact ⟨⟨k, v, now, now, 0, s.ttl⟩, by simp⟩
    case _ =>
      refine ⟨⟨k, v, now, now, 0, s.ttl⟩, ?_⟩
      cases hc : s.cache with
      | nil =>
        rw [hc] at hov
        simp at hov
        omega
      | cons x t => simp
    case _ => exact ⟨⟨k, v, now, now, 0, s.ttl⟩, by simp⟩

/-- Witness for C2 at concrete caches, discharging the hypotheses of both
universally quantified parts. -/
theorem lru_recency_order_witness :
    (∃ e, (((LRUCache.init Int 2 3600).set "a" 1 0).get "a" 0).2.cache.getLast?
        = some ("a", e)) ∧
    (∃ e, ((LRUCache.init Int 2 3600).set "a" 1 0).cache.getLast?
        = some ("a", e)) :=
  ⟨(lru_recency_order Int).1 ((LRUCache.init Int 2 3600).set "a" 1 0) "a" 0 1
      ((((LRUCache.init Int 2 3600).set "a" 1 0).get "a" 0).2) (by decide),
   (lru_recency_order Int).2.1 (LRUCache.init Int 2 3600) "a" 1 0 (by decide)⟩

/-- C6: an expired entry is removed by the `get` that discovers the expiry,
counted as a miss and reported absent; `get` never returns an expired
entry's value; and removal is lazy — a `get` on one key never removes any
other key. -/
theorem lru_ttl_expiry_lazy (α : Type) :
    (∀ (s : LRUCache α) (k : String) (e : CacheEntry α) (now : Int),
        s.cache.find? (fun p => p.1 == k) = some (k, e) →
        e.is_expired now = true →
        s.get k now =
          (none, { s with cache := s.cache.eraseP (fun p => p.1 == k),
                          misses := s.misses + 1 })) ∧
    (∀ (s : LRUCache α) (k : String) (now : Int) (v : α) (s' : LRUCache α),
        s.get k now = (some v, s') →
        ∃ en, s.cache.find? (fun p => p.1 == k) = some (k, en) ∧
          en.is_expired now = false ∧ v = en.value) ∧
    (∀ (s : LRUCache α) (k k' : String) (now : Int), k' ≠ k →
        (s.get k now).2.contains k' = s.contains k') := by
  refine ⟨?_, ?_, ?_⟩
  · intro s k e now hfind hexp
    exact LRUCache.get_expired s k e now hfind hexp
  · intro s k now v s' h
    obtain ⟨en, hfind, hexp, hv, _⟩ := LRUCache.get_some_inv s k now v s' h
    exact ⟨en, hfind, hexp, hv⟩
  · intro s k k' now hne
    simp only [LRUCache.get, LRUCache.contains]
    split
    · rfl
    · split
      · simp only [LRUCache.find?_eraseP_ne s.cache k k' hne]
      · have hkk' : ((k : String) == k') = false := by
          simp only [beq_eq_false_iff_ne, ne_eq]
          exact fun hh => hne hh.symm
        have hsingle : ∀ e : CacheEntry α,
            ([(k, e)].find? (fun p => p.1 == k')) = none := by
          intro e
          rw [List.find?_cons_of_neg]
          · rfl
          · simp [hkk']
        simp only [List.find?_append,
          LRUCache.find?_eraseP_ne s.cache k k' hne, hsingle]
        cases hf : s.cache.find? (fun p => p.1 == k') <;> simp

/-- Witness for C6: a `ttl = 0` entry read one second later is removed and
missed; a fresh entry is returned non-expired; and a `get` on key a leaves
membership of key b unchanged. -/
theorem lru_ttl_expiry_lazy_witness :
    ((((LRUCache.init Int 2 0).set "a" 1 0).get "a" 1) =
      (none, ⟨2, 0, [], 0, 1⟩)) ∧
    (∃ en, (((LRUCache.init Int 2 3600).set "a" 1 0).cache.find?
        (fun p => p.1 == "a")) = some ("a", en) ∧
        en.is_expired 0 = false ∧ (1 : Int) = en.value) ∧
    (((((LRUCache.init Int 2 3600).set "a" 1 0).get "a" 0).2.contains "b") =
      (((LRUCache.init Int 2 3600).set "a" 1 0).contains "b")) := by
  refine ⟨?_, ?_, ?_⟩
  · have h := (lru_ttl_expiry_lazy Int).1 ((LRUCache.init Int 2 0).set "a" 1 0)
      "a" ⟨"a", 1, 0, 0, 0, 0⟩ 1 (by decide) (by decide)
    exact h.trans (by decide)
  · exact (lru_ttl_expiry_lazy Int).2.1 ((LRUCache.init Int 2 3600).set "a" 1 0)
      "a" 0 1 ((((LRUCache.init Int 2 3600).set "a" 1 0).get "a" 0).2)
      (by decide)
  · exact (lru_ttl_expiry_lazy Int).2.2 ((LRUCache.init Int 2 3600).set "a" 1 0)
      "a" "b" 0 (by decide)

/-- C10: dictionary membership (`__contains__`) and `delete` do not consult
the TTL — a stored entry that is expired but not yet lazily removed still
tests as a member and deletes as present, even though `get` on the same key
reports absent. -/
theorem lru_contains_ignores_ttl (α : Type) :
    ∀ (s : LRUCache α) (k : String) (e : CacheEntry α) (now : Int),
      s.cache.find? (fun p => p.1 == k) = some (k, e) →
      e.is_expired now = true →
      s.contains k = true ∧ (s.get k now).1 = none ∧
        (s.delete k).1 = true := by
  intro s k e now hfind hexp
  refine ⟨?_, ?_, ?_⟩
  · simp [LRUCache.contains, hfind]
  · rw [LRUCache.get_expired s k e now hfind hexp]
  · simp [LRUCache.delete, hfind]

/-- Witness for C10: an expired entry still tests as a member and deletes as
present. -/
theorem lru_contains_ignores_ttl_witness :
    ((LRUCache.init Int 2 0).set "a" 1 0).contains "a" = true ∧
    ((((LRUCache.init Int 2 0).set "a" 1 0).get "a" 1).1 = none) ∧
    ((((LRUCache.init Int 2 0).set "a" 1 0).delete "a").1 = true) :=
  lru_contains_ignores_ttl Int ((LRUCache.init Int 2 0).set "a" 1 0) "a"
    ⟨"a", 1, 0, 0, 0, 0⟩ 1 (by decide) (by decide)

lemma retryGo_all_fail (retryable : ε → Bool)
    (base_delay max_delay exponential_base : ℚ) (errs : Nat → ε)
    (hre : ∀ i, retryable (errs i) = true) :
    ∀ (remaining attempt : Nat),
      retryGo (fun i => (Except.error (errs i) : Except ε α)) retryable
          base_delay max_delay exponential_base attempt remaining =
        ⟨Except.error (errs (attempt + remaining)), remaining + 1,
         (List.range' attempt remaining).map
           (fun a => exponential_backoff a base_delay max_delay
             exponential_base)⟩ := by
  intro remaining
  induction remaining with
  | zero => intro attempt; simp [retryGo]
  | succ m ih =>
    intro attempt
    simp only [retryGo, hre (attempt), ite_true, ih (attempt + 1),
      List.range'_succ, List.map_cons]
    have harith : attempt + 1 + m = attempt + (m + 1) := by omega
    rw [harith]

/-- C3: an operation that raises a retryable failure on every attempt is,
under `max_retries = n`, invoked exactly `n + 1` times and the last failure
then propagates unchanged; the delay before the zero-indexed retry
`a` is `min(base_delay * exponential_base ^ a, max_delay)`, so the delays
are non-decreasing (for `exponential_base > 1` and a nonnegative base
delay) and are capped at `max_delay`. -/
theorem retry_exhaustion (ε α : Type) (n : Nat)
    (base_delay max_delay exponential_base : ℚ)
    (retryable : ε → Bool) (errs : Nat → ε)
    (hre : ∀ i, retryable (errs i) = true) :
    ∀ r : RetryOutcome ε α,
    r = retry_with_exponential_backoff n base_delay max_delay
      exponential_base retryable
      (fun i => (Except.error (errs i) : Except ε α)) →
    r.result = Except.error (errs n) ∧
    r.calls = n + 1 ∧
    r.delays = (List.range n).map
      (fun a => exponential_backoff a base_delay max_delay exponential_base) ∧
    (0 ≤ base_delay → 1 < exponential_base →
      r.delays.Sorted (· ≤ ·)) ∧
    (∀ d ∈ r.delays, d ≤ max_delay) := by
  intro r hrdef
  subst hrdef
  set r := retry_with_exponential_backoff n base_delay max_delay
    exponential_base retryable
    (fun i => (Except.error (errs i) : Except ε α)) with hrd
  have hr : r = ⟨Except.error (errs n), n + 1,
      (List.range' 0 n).map (fun a => exponential_backoff a base_delay
        max_delay exponential_base)⟩ := by
    show retryGo _ _ _ _ _ 0 n = _
    rw [retryGo_all_fail retryable base_delay max_delay exponential_base errs
      hre n 0]
    simp
  have hrange : List.range n = List.range' 0 n := List.range_eq_range' n
  refine ⟨by rw [hr], by rw [hr], by rw [hr, hrange], ?_, ?_⟩
  · intro hbd heb
    rw [hr]
    simp only [List.Sorted]
    refine List.Pairwise.map _ ?_ (List.pairwise_lt_range' 0 n)
    intro a b hab
    exact min_le_min (by
      have := pow_le_pow_right₀ (le_of_lt heb) (le_of_lt hab)
      exact mul_le_mul_of_nonneg_left this hbd) le_rfl
  · intro d hd
    rw [hr] at hd
    simp only [List.mem_map] at hd
    obtain ⟨a, _, rfl⟩ := hd
    exact min_le_right _ _

/-- Witness for C3 at `max_retries = 3`, `base_delay = 1`,
`max_delay = 60`, `exponential_base = 2` and an always-failing operation. -/
theorem retry_exhaustion_witness :
    (retry_with_exponential_backoff 3 1 60 2 (fun _ : Unit => true)
      (fun _ => (Except.error () : Except Unit Nat))).result =
      Except.error () ∧
    (retry_with_exponential_backoff 3 1 60 2 (fun _ : Unit => true)
      (fun _ => (Except.error () : Except Unit Nat))).calls = 3 + 1 ∧
    (retry_with_exponential_backoff 3 1 60 2 (fun _ : Unit => true)
      (fun _ => (Except.error () : Except Unit Nat))).delays =
      (List.range 3).map (fun a => exponential_backoff a 1 60 2) ∧
    ((0 : ℚ) ≤ 1 → (1 : ℚ) < 2 →
      (retry_with_exponential_backoff 3 1 60 2 (fun _ : Unit => true)
        (fun _ => (Except.error () : Except Unit Nat))).delays.Sorted
        (· ≤ ·)) ∧
    (∀ d ∈ (retry_with_exponential_backoff 3 1 60 2 (fun _ : Unit => true)
        (fun _ => (Except.error () : Except Unit Nat))).delays, d ≤ 60) :=
  retry_exhaustion Unit Nat 3 1 60 2 (fun _ => true) (fun _ => ())
    (fun _ => rfl) _ rfl

/-- C8: a failure whose kind is not retryable propagates after exactly one
invocation, with no delay. -/
theorem retry_nonretryable_single_call (ε α : Type) (n : Nat)
    (base_delay max_delay exponential_base : ℚ)
    (retryable : ε → Bool) (e : ε) (op : Nat → Except ε α)
    (hop : op 0 = Except.error e) (hnr : retryable e = false) :
    retry_with_exponential_backoff n base_delay max_delay exponential_base
        retryable op = ⟨Except.error e, 1, []⟩ := by
  cases n with
  | zero => simp [retry_with_exponential_backoff, retryGo, hop]
  | succ m => simp [retry_with_exponential_backoff, retryGo, hop, hnr]

/-- Witness for C8 at a concrete non-retryable failure. -/
theorem retry_nonretryable_single_call_witness :
    retry_with_exponential_backoff 3 1 60 2 (fun _ : Unit => false)
        (fun _ => (Except.error () : Except Unit Nat)) =
      ⟨Except.error (), 1, []⟩ :=
  retry_nonretryable_single_call Unit Nat 3 1 60 2 (fun _ => false) ()
    (fun _ => Except.error ()) rfl rfl

lemma CircuitBreaker.attempt_open_inv (cb : CircuitBreaker)
    (guarded : PyExc → Bool) (opRes : Except PyExc α) (now : ℚ)
    (hno : cb.state ≠ CBState.opened) :
    (cb.attempt guarded opRes now).2.1.state = CBState.opened →
      (cb.attempt guarded opRes now).2.1.failure_threshold ≤
        (cb.attempt guarded opRes now).2.1.failure_count := by
  cases opRes with
  | ok a =>
    simp only [CircuitBreaker.attempt, CircuitBreaker.on_success]
    split
    · intro h
      simp at h
    · intro h
      exact absurd h hno
  | error e =>
    simp only [CircuitBreaker.attempt]
    split
    · simp only [CircuitBreaker.on_failure]
      split
      · rename_i hge
        intro _
        simpa using hge
      · intro h
        exact absurd h hno
    · intro h
      exact absurd h hno

lemma CircuitBreaker.call_preserves_open_inv (cb : CircuitBreaker)
    (guarded : PyExc → Bool) (opRes : Except PyExc α) (now : ℚ)
    (hinv : cb.state = CBState.opened →
      cb.failure_threshold ≤ cb.failure_count) :
    (cb.call guarded opRes now).2.1.state = CBState.opened →
      (cb.call guarded opRes now).2.1.failure_threshold ≤
        (cb.call guarded opRes now).2.1.failure_count := by
  simp only [CircuitBreaker.call]
  split
  · split
    · exact CircuitBreaker.attempt_open_inv _ guarded opRes now (by simp)
    · intro h
      exact hinv h
  · rename_i hne
    exact CircuitBreaker.attempt_open_inv _ guarded opRes now hne

/-- C4: in the open state, once `now - last_failure_time >=
recovery_timeout` the next call switches the breaker to half-open and
invokes the operation; a success closes the breaker with `failure_count`
reset to 0; a guarded failure reopens it.  The hypothesis
`failure_threshold <= failure_count` holds in every open state the breaker
reaches (see `CircuitBreaker.call_preserves_open_inv`): only `_on_failure`
sets the state to open, exactly when the incremented count reaches the
threshold, and the count is not reset while the breaker stays open. -/
theorem cb_open_recovery (α : Type) (cb : CircuitBreaker)
    (guarded : PyExc → Bool) (opRes : Except PyExc α) (now t : ℚ)
    (hopen : cb.state = CBState.opened)
    (hlast : cb.last_failure_time = some t)
    (helapsed : cb.recovery_timeout ≤ now - t)
    (hcount : cb.failure_threshold ≤ cb.failure_count) :
    cb.call guarded opRes now =
      ({ cb with state := CBState.halfOpen }).attempt guarded opRes now ∧
    (cb.call guarded opRes now).2.2 = true ∧
    (∀ a, opRes = Except.ok a →
      (cb.call guarded opRes now).1 = Except.ok a ∧
      (cb.call guarded opRes now).2.1.state = CBState.closed ∧
      (cb.call guarded opRes now).2.1.failure_count = 0) ∧
    (∀ e, opRes = Except.error e → guarded e = true →
      (cb.call guarded opRes now).2.1.state = CBState.opened ∧
      (cb.call guarded opRes now).1 = Except.error e) := by
  have hreset : cb.should_attempt_reset now = true := by
    simp only [CircuitBreaker.should_attempt_reset, hlast,
      decide_eq_true_eq, ge_iff_le]
    exact helapsed
  have hcall : cb.call guarded opRes now =
      ({ cb with state := CBState.halfOpen }).attempt guarded opRes now := by
    simp [CircuitBreaker.call, hopen, hreset]
  refine ⟨hcall, ?_, ?_, ?_⟩
  · rw [hcall]
    cases opRes with
    | ok a => rfl
    | error e =>
      simp only [CircuitBreaker.attempt]
      split <;> rfl
  · intro a ha
    subst ha
    rw [hcall]
    exact ⟨rfl, rfl, rfl⟩
  · intro e he hg
    subst he
    rw [hcall]
    simp only [CircuitBreaker.attempt, hg, ite_true]
    refine ⟨?_, by trivial⟩
    show (CircuitBreaker.on_failure _ now).state = CBState.opened
    simp only [CircuitBreaker.on_failure]
    split
    · rfl
    · rename_i hlt
      exact absurd (show cb.failure_count + 1 ≥ cb.failure_threshold by
        omega) hlt

/-- Witness for C4 at a concrete open breaker whose recovery timeout has
elapsed: a successful trial closes it, a failed trial reopens it. -/
theorem cb_open_recovery_witness :
    ((⟨1, 60, 1, some 0, CBState.opened⟩ : CircuitBreaker).call
        (fun _ => true) (Except.ok 7 : Except PyExc Nat) 60).2.1.state =
      CBState.closed ∧
    ((⟨1, 60, 1, some 0, CBState.opened⟩ : CircuitBreaker).call
        (fun _ => true) (Except.error ⟨"Exception", 0⟩ : Except PyExc Nat)
        60).2.1.state = CBState.opened :=
  ⟨((cb_open_recovery Nat ⟨1, 60, 1, some 0, CBState.opened⟩ (fun _ => true)
      (Except.ok 7) 60 0 rfl rfl (by norm_num) (by decide)).2.2.1 7
      rfl).2.1,
   ((cb_open_recovery Nat ⟨1, 60, 1, some 0, CBState.opened⟩ (fun _ => true)
      (Except.error ⟨"Exception", 0⟩) 60 0 rfl rfl (by norm_num)
      (by decide)).2.2.2 ⟨"Exception", 0⟩ rfl rfl).1⟩

lemma CircuitBreaker.call_rejects (cb : CircuitBreaker)
    (guarded : PyExc → Bool) (opRes : Except PyExc α) (now : ℚ)
    (hopen : cb.state = CBState.opened)
    (hnot : cb.should_attempt_reset now = false) :
    cb.call guarded opRes now =
      (Except.error ⟨"Exception", cb.recovery_timeout⟩, cb, false) := by
  simp [CircuitBreaker.call, hopen, hnot]

/-- C5 fails on the code at a concrete input: with `recovery_timeout = 60`
and the last failure at time 0, a call at time 10 is rejected with a plain
`"Exception"` — the same class as an ordinary upstream failure, hence not a
distinct kind — whose payload is the full `recovery_timeout` 60, not the
remaining cooldown `60 - 10 = 50`. -/
theorem cb_open_rejection_counterexample :
    ((⟨5, 60, 5, some 0, CBState.opened⟩ : CircuitBreaker).call
        (fun _ => true) (Except.error ⟨"Exception", 0⟩ : Except PyExc Nat)
        10).1 = Except.error ⟨"Exception", 60⟩ ∧
    (⟨"Exception", (60 : ℚ)⟩ : PyExc).ty =
      (⟨"Exception", (0 : ℚ)⟩ : PyExc).ty ∧
    (60 : ℚ) ≠ 60 - 10 := by
  have h := CircuitBreaker.call_rejects (α := Nat)
    ⟨5, 60, 5, some 0, CBState.opened⟩ (fun _ => true)
    (Except.error ⟨"Exception", 0⟩) 10 rfl (by
      simp only [CircuitBreaker.should_attempt_reset, ge_iff_le,
        decide_eq_false_iff_not, not_le]
      norm_num)
  exact ⟨by rw [h], rfl, by norm_num⟩

/-- C5 (amended): a call rejected by an open breaker before the recovery
timeout does not invoke the wrapped operation and leaves the breaker
unchanged, but the rejection is raised as a plain generic `Exception` —
not a distinct exception kind — whose message carries the full
`recovery_timeout` rather than the remaining cooldown. -/
theorem cb_open_rejection (α : Type) (cb : CircuitBreaker)
    (guarded : PyExc → Bool) (opRes : Except PyExc α) (now : ℚ)
    (hopen : cb.state = CBState.opened)
    (hnot : cb.should_attempt_reset now = false) :
    cb.call guarded opRes now =
      (Except.error ⟨"Exception", cb.recovery_timeout⟩, cb, false) :=
  CircuitBreaker.call_rejects cb guarded opRes now hopen hnot

/-- Witness for the amended C5 at a concrete open breaker inside its
cooldown window. -/
theorem cb_open_rejection_witness :
    (⟨5, 60, 5, some 0, CBState.opened⟩ : CircuitBreaker).call
        (fun _ => true) (Except.ok 3 : Except PyExc Nat) 10 =
      (Except.error ⟨"Exception", 60⟩,
       ⟨5, 60, 5, some 0, CBState.opened⟩, false) :=
  cb_open_rejection Nat ⟨5, 60, 5, some 0, CBState.opened⟩ (fun _ => true)
    (Except.ok 3) 10 rfl (by
      simp only [CircuitBreaker.should_attempt_reset, ge_iff_le,
        decide_eq_false_iff_not, not_le]
      norm_num)

set_option maxRecDepth 20000 in
lemma sha256hex_abc : sha256hex "abc" =
    "ba7816bf8f01cfea414140de5dae2223b00361a396177a9cb410ff61f20015ad" := by
  decide

set_option maxRecDepth 20000 in
lemma keyString_example : keyString "q" [("a", JVal.jint 1), ("b", JVal.jint 2)]
    = "\x7b\"a\": 1, \"b\": 2, \"query\": \"q\"\x7d" := by
  decide

lemma charListLt_asymm : ∀ (as bs : List Char),
    charListLt as bs = true → charListLt bs as = true → False
  | [], [], h1, _ => by simp [charListLt] at h1
  | [], _ :: _, _, h2 => by simp [charListLt] at h2
  | _ :: _, [], h1, _ => by simp [charListLt] at h1
  | a :: as, b :: bs, h1, h2 => by
    simp only [charListLt] at h1 h2
    by_cases hab : a.toNat < b.toNat
    · have hba : ¬ b.toNat < a.toNat := by omega
      rw [if_neg hba, if_pos hab] at h2
      exact Bool.false_ne_true h2
    · by_cases hba : b.toNat < a.toNat
      · rw [if_neg hab, if_pos hba] at h1
        exact Bool.false_ne_true h1
      · rw [if_neg hab, if_neg hba] at h1
        rw [if_neg hba, if_neg hab] at h2
        exact charListLt_asymm as bs h1 h2

lemma charToNat_inj {a b : Char} (h : a.toNat = b.toNat) : a = b :=
  Char.ext (UInt32.ext h)

lemma charListLt_eq_of_not : ∀ (as bs : List Char),
    charListLt as bs = false → charListLt bs as = false → as = bs
  | [], [], _, _ => rfl
  | [], _ :: _, h1, _ => by simp [charListLt] at h1
  | _ :: _, [], _, h2 => by simp [charListLt] at h2
  | a :: as, b :: bs, h1, h2 => by
    simp only [charListLt] at h1 h2
    by_cases hab : a.toNat < b.toNat
    · rw [if_pos hab] at h1
      exact absurd h1 (by simp)
    · by_cases hba : b.toNat < a.toNat
      · rw [if_pos hba] at h2
        exact absurd h2 (by simp)
      · rw [if_neg hab, if_neg hba] at h1
        rw [if_neg hba, if_neg hab] at h2
        have heq : a = b := charToNat_inj (by omega)
        rw [heq, charListLt_eq_of_not as bs h1 h2]

lemma charListLt_trans : ∀ (as bs cs : List Char),
    charListLt as bs = true → charListLt bs cs = true →
    charListLt as cs = true
  | [], _, _ :: _, _, _ => by simp [charListLt]
  | [], _ :: _, [], _, h2 => by simp [charListLt] at h2
  | [], [], [], h1, _ => by simp [charListLt] at h1
  | _ :: _, [], _, h1, _ => by simp [charListLt] at h1
  | _ :: _, _ :: _, [], _, h2 => by simp [charListLt] at h2
  | a :: as, b :: bs, c :: cs, h1, h2 => by
    simp only [charListLt] at h1 h2 ⊢
    by_cases hab : a.toNat < b.toNat
    · by_cases hbc : b.toNat < c.toNat
      · rw [if_pos (by omega : a.toNat < c.toNat)]
      · rw [if_neg hbc] at h2
        by_cases hcb : c.toNat < b.toNat
        · rw [if_pos hcb] at h2
          exact absurd h2 (by simp)
        · rw [if_pos (by omega : a.toNat < c.toNat)]
    · rw [if_neg hab] at h1
      by_cases hba : b.toNat < a.toNat
      · rw [if_pos hba] at h1
        exact absurd h1 (by simp)
      · rw [if_neg hba] at h1
        by_cases hbc : b.toNat < c.toNat
        · rw [if_pos (by omega : a.toNat < c.toNat)]
        · rw [if_neg hbc] at h2
          by_cases hcb : c.toNat < b.toNat
          · rw [if_pos hcb] at h2
            exact absurd h2 (by simp)
          · rw [if_neg hcb] at h2
            rw [if_neg (by omega : ¬ a.toNat < c.toNat),
              if_neg (by omega : ¬ c.toNat < a.toNat)]
            exact charListLt_trans as bs cs h1 h2

lemma stringDataEq : ∀ {s t : String}, s.data = t.data → s = t
  | ⟨_⟩, ⟨_⟩, h => congrArg String.mk h

lemma strLt_of_le_ne {s t : String} (hle : strLe s t = true) (hne : s ≠ t) :
    strLt s t = true := by
  simp only [strLe, strLt, Bool.not_eq_true'] at hle ⊢
  by_cases h : charListLt s.data t.data = true
  · exact h
  · exact absurd (stringDataEq (charListLt_eq_of_not s.data t.data
      (by simpa using h) hle)) hne

lemma pairLe_total : ∀ (p q : String × JVal), pairLe p q ∨ pairLe q p := by
    intro p q
    simp only [pairLe, strLe, Bool.not_eq_true']
    by_cases h1 : charListLt q.1.data p.1.data = true
    · by_cases h2 : charListLt p.1.data q.1.data = true
      · exact absurd (charListLt_asymm _ _ h1 h2) (fun f => f)
      · exact Or.inr (by simpa using h2)
    · exact Or.inl (by simpa using h1)

lemma pairLe_trans : ∀ (a b c : String × JVal),
    pairLe a b → pairLe b c → pairLe a c := by
    intro a b c h1 h2
    simp only [pairLe, strLe, strLt, Bool.not_eq_true'] at h1 h2 ⊢
    by_cases h : charListLt c.1.data a.1.data = true
    · by_cases hba : charListLt b.1.data a.1.data = true
      · rw [h1] at hba
        exact absurd hba (by simp)
      · by_cases hcb : charListLt c.1.data b.1.data = true
        · rw [h2] at hcb
          exact absurd hcb (by simp)
        · have hab : charListLt a.1.data b.1.data = true ∨
              a.1.data = b.1.data := by
            by_cases hx : charListLt a.1.data b.1.data = true
            · exact Or.inl hx
            · exact Or.inr (charListLt_eq_of_not _ _ (by simpa using hx) h1)
          cases hab with
          | inl hab =>
            have := charListLt_trans _ _ _ h hab
            rw [h2] at this
            exact absurd this (by simp)
          | inr hab =>
            rw [hab] at h
            rw [h2] at h
            exact absurd h (by simp)
    · simpa using h

lemma sorted_pairLe_strict {l : List (String × JVal)}
    (hs : l.Sorted pairLe) (hnd : (l.map Prod.fst).Nodup) :
    l.Sorted pairLt := by
  have hps : List.Pairwise (fun p q : String × JVal => p.1 ≠ q.1) l := by
    rw [List.Nodup, List.pairwise_map] at hnd
    exact hnd
  refine List.Pairwise.imp ?_ (hs.and hps)
  intro a b hab
  exact strLt_of_le_ne hab.1 (by
    intro h
    exact hab.2 (by rw [h]))

lemma sortPairs_eq_of_perm (l₁ l₂ : List (String × JVal))
    (hperm : l₁.Perm l₂) (hnd : (l₁.map Prod.fst).Nodup) :
    sortPairs l₁ = sortPairs l₂ := by
  have hp1 : (sortPairs l₁).Perm l₁ := List.perm_insertionSort pairLe l₁
  have hp2 : (sortPairs l₂).Perm l₂ := List.perm_insertionSort pairLe l₂
  have hchain : (sortPairs l₁).Perm (sortPairs l₂) :=
    (hp1.trans hperm).trans hp2.symm
  have hnd1 : ((sortPairs l₁).map Prod.fst).Nodup :=
    ((hp1.map Prod.fst).nodup_iff).mpr hnd
  have hnd2 : ((sortPairs l₂).map Prod.fst).Nodup :=
    ((hp2.map Prod.fst).nodup_iff).mpr
      ((hperm.map Prod.fst).nodup_iff.mp hnd)
  haveI : IsTotal (String × JVal) pairLe := ⟨pairLe_total⟩
  haveI : IsTrans (String × JVal) pairLe := ⟨pairLe_trans⟩
  have hs1 : (sortPairs l₁).Sorted pairLt :=
    sorted_pairLe_strict (List.sorted_insertionSort pairLe l₁) hnd1
  have hs2 : (sortPairs l₂).Sorted pairLt :=
    sorted_pairLe_strict (List.sorted_insertionSort pairLe l₂) hnd2
  haveI : IsAntisymm (String × JVal) pairLt :=
    ⟨fun a b h1 h2 => absurd (charListLt_asymm _ _ h1 h2) (fun f => f)⟩
  exact List.eq_of_perm_of_sorted hchain hs1 hs2

lemma combineFoldl_lt : ∀ (ws : List Nat) (acc n : Nat),
    acc < 4294967296 ^ n →
    ws.foldl (fun a w => a * 4294967296 + w % 4294967296) acc <
      4294967296 ^ (n + ws.length) := by
  intro ws
  induction ws with
  | nil => intro acc n h; simpa using h
  | cons w t ih =>
    intro acc n h
    have h2 : w % 4294967296 < 4294967296 := Nat.mod_lt _ (by norm_num)
    have hstep : acc * 4294967296 + w % 4294967296 <
        4294967296 ^ (n + 1) := by
      have hmul : (acc + 1) * 4294967296 ≤ 4294967296 ^ n * 4294967296 :=
        Nat.mul_le_mul_right _ h
      calc acc * 4294967296 + w % 4294967296
          < (acc + 1) * 4294967296 := by omega
        _ ≤ 4294967296 ^ n * 4294967296 := hmul
        _ = 4294967296 ^ (n + 1) := by rw [pow_succ]
    have hrec := ih (acc * 4294967296 + w % 4294967296) (n + 1) hstep
    have harith : n + 1 + t.length = n + (t.length + 1) := by omega
    rw [harith] at hrec
    simpa using hrec

lemma combineWords8_lt (st : Sha256State) :
    combineWords [st.a, st.b, st.c, st.d, st.e, st.f, st.g, st.h] <
      4294967296 ^ 8 := by
  have h := combineFoldl_lt [st.a, st.b, st.c, st.d, st.e, st.f, st.g, st.h]
    0 0 (by norm_num)
  have hl : (0 : Nat) +
      ([st.a, st.b, st.c, st.d, st.e, st.f, st.g, st.h] : List Nat).length =
      8 := by
    simp
  rw [hl] at h
  exact h

lemma sha256Nat_lt (msg : List Nat) : sha256Nat msg < 4294967296 ^ 8 := by
  simp only [sha256Nat]
  exact combineWords8_lt _

lemma LRUCache.get_no_new_entries (s : LRUCache α) (k : String) (now : Int) :
    (∀ p2 ∈ ((s.get k now).2).cache, ∃ p ∈ s.cache,
        p2.1 = p.1 ∧ p2.2.value = p.2.value ∧
        p2.2.created_at = p.2.created_at ∧ p2.2.ttl = p.2.ttl) ∧
    ((s.get k now).2).cache.length ≤ s.cache.length := by
  simp only [LRUCache.get]
  split
  · exact ⟨fun p2 hp2 => ⟨p2, hp2, rfl, rfl, rfl, rfl⟩, le_rfl⟩
  · rename_i pr fst entry hfind
    split
    · refine ⟨?_, (List.eraseP_sublist _).length_le⟩
      intro p2 hp2
      exact ⟨p2, List.mem_of_mem_eraseP hp2, rfl, rfl, rfl, rfl⟩
    · have hfst : fst = k := by
        have := List.find?_some hfind
        simpa using this
      have hmem : (fst, entry) ∈ s.cache := List.mem_of_find?_eq_some hfind
      constructor
      · intro p2 hp2
        rcases List.mem_append.mp hp2 with h | h
        · exact ⟨p2, List.mem_of_mem_eraseP h, rfl, rfl, rfl, rfl⟩
        · rw [List.mem_singleton] at h
          subst h
          exact ⟨(fst, entry), hmem, hfst.symm, rfl, rfl, rfl⟩
      · have hlen : (s.cache.eraseP (fun p => p.1 == k)).length =
            s.cache.length - 1 :=
          List.length_eraseP_of_mem hmem (by simp [hfst])
        have hpos : 1 ≤ s.cache.length := List.length_pos.mpr
          (List.ne_nil_of_mem hmem)
        simp only [List.length_append, List.length_singleton, hlen]
        omega

set_option maxRecDepth 20000 in
/-- C9 fails on the code at a concrete input: with caching enabled, after
storing a result for query "q", the very next `QueryCache.get` of "q"
changes the underlying hit counter from 0 to 1 (it also refreshes the
recency order and access bookkeeping), so the fast path is not
side-effect-free. -/
theorem qc_get_side_effects_counterexample :
    ((((QueryCache.init Nat ⟨true, 3600, 10⟩).set "q" [] 42 0).get "q" []
        0).2.cache.map LRUCache.hits = some 1) ∧
    (((QueryCache.init Nat ⟨true, 3600, 10⟩).set "q" [] 42
        0).cache.map LRUCache.hits = some 0) := by
  decide

/-- C9 (amended): `QueryCache.get` never inserts an entry and never changes
a stored entry's key, value, creation time or TTL — every entry present
after the call descends from one present before, and the entry count does
not grow.  (It may update hit/miss counters, recency order and access
bookkeeping, and may lazily drop an expired entry.) -/
theorem qc_get_frame (α : Type) :
    ∀ (qc : QueryCache α) (query : String)
      (params : List (String × JVal)) (now : Int),
      (∀ p2 ∈ ((qc.get query params now).2).entries, ∃ p ∈ qc.entries,
          p2.1 = p.1 ∧ p2.2.value = p.2.value ∧
          p2.2.created_at = p.2.created_at ∧ p2.2.ttl = p.2.ttl) ∧
      ((qc.get query params now).2).entries.length ≤ qc.entries.length := by
  intro qc query params now
  simp only [QueryCache.get]
  split
  · exact ⟨fun p2 hp2 => ⟨p2, hp2, rfl, rfl, rfl, rfl⟩, le_rfl⟩
  · split
    · exact ⟨fun p2 hp2 => ⟨p2, hp2, rfl, rfl, rfl, rfl⟩, le_rfl⟩
    · rename_i c hc
      simp only [QueryCache.entries, hc]
      exact LRUCache.get_no_new_entries c _ now

/-- C7 fails in its universal clause: `QueryCache._generate_key` maps
infinitely many distinct query strings into the finitely many 256-bit
digests, so two distinct queries with identical parameters share a key. -/
theorem qc_key_not_injective :
    ∃ q₁ q₂ : String, q₁ ≠ q₂ ∧
      QueryCache.generate_key q₁ [] = QueryCache.generate_key q₂ [] := by
  have hbound : ∀ n : Nat,
      sha256Nat (strBytes (keyString
        (String.mk (List.replicate (n + 1) 'a')) [])) < 4294967296 ^ 8 :=
    fun n => sha256Nat_lt _
  obtain ⟨n, m, hnm, hfe⟩ := Finite.exists_ne_map_eq_of_infinite
    (fun n : Nat => (⟨sha256Nat (strBytes (keyString
      (String.mk (List.replicate (n + 1) 'a')) [])), hbound n⟩ :
      Fin (4294967296 ^ 8)))
  refine ⟨String.mk (List.replicate (n + 1) 'a'),
    String.mk (List.replicate (m + 1) 'a'), ?_, ?_⟩
  · intro hEq
    apply hnm
    have hdata := congrArg String.data hEq
    simp only at hdata
    have := congrArg List.length hdata
    simpa using this
  · have hval : sha256Nat (strBytes (keyString
        (String.mk (List.replicate (n + 1) 'a')) [])) =
        sha256Nat (strBytes (keyString
        (String.mk (List.replicate (m + 1) 'a')) [])) := by
      have := congrArg Fin.val hfe
      simpa using this
    simp only [QueryCache.generate_key, sha256hex]
    rw [hval]

set_option maxRecDepth 40000 in
/-- C7 (amended): the cache key is a deterministic function of the query
and the set of extra parameters — permuting the parameters (distinct keys,
none named "query", as Python keyword arguments guarantee) leaves the key
unchanged; and on the spec's example the keys for `("q", {a:1,b:2})` and
`("q", {b:2,a:1})` coincide while `("q2", {a:1,b:2})` yields a different
key.  Distinct queries are not guaranteed distinct keys universally (see
the collision existence result), only with overwhelming probability. -/
theorem qc_key_determinism :
    (∀ (q : String) (ps ps2 : List (String × JVal)),
        ps.Perm ps2 → (ps.map Prod.fst).Nodup →
        "query" ∉ ps.map Prod.fst →
        QueryCache.generate_key q ps = QueryCache.generate_key q ps2) ∧
    (QueryCache.generate_key "q" [("a", JVal.jint 1), ("b", JVal.jint 2)] =
      QueryCache.generate_key "q" [("b", JVal.jint 2), ("a", JVal.jint 1)]) ∧
    (QueryCache.generate_key "q" [("a", JVal.jint 1), ("b", JVal.jint 2)] ≠
      QueryCache.generate_key "q2" [("a", JVal.jint 1), ("b", JVal.jint 2)])
    := by
  refine ⟨?_, by decide, by decide⟩
  intro q ps ps2 hperm hnd hq
  have hnodup : ((("query", JVal.jstr q) :: ps).map Prod.fst).Nodup := by
    simp only [List.map_cons, List.nodup_cons]
    exact ⟨hq, hnd⟩
  have hsort := sortPairs_eq_of_perm (("query", JVal.jstr q) :: ps)
    (("query", JVal.jstr q) :: ps2) (hperm.cons _) hnodup
  simp only [QueryCache.generate_key, keyString, hsort]

/-- Witness for the amended C7: the spec's concrete parameter reordering,
with the permutation/distinctness hypotheses discharged by evaluation. -/
theorem qc_key_determinism_witness :
    QueryCache.generate_key "q" [("a", JVal.jint 1), ("b", JVal.jint 2)] =
      QueryCache.generate_key "q" [("b", JVal.jint 2), ("a", JVal.jint 1)] :=
  qc_key_determinism.1 "q" [("a", JVal.jint 1), ("b", JVal.jint 2)]
    [("b", JVal.jint 2), ("a", JVal.jint 1)] (by decide) (by decide)
    (by decide)

end Rag
